import Mathlib

/-!
Verification development for the Seenovate website-maker backend.

Each section shallowly embeds one part of the server source:

* `NodePath`  — the posix behaviour of Node's `path.normalize` / `path.join`,
  needed by `Storage.getFullPath` (src/server/src/storage/index.ts).
* `Storage`   — the path-resolution sanitizer of the `Storage` class.
* `GenStream` — the SSE generation loop of `POST /stream/:chatId`
  (src/server/src/routes/stream.ts, lines 143-257).
* `ProcMgr`   — the `ProcessManager` lease map and port allocation
  (src/server/src/services/ai_tools.ts, process-manager part, lines 151-290).
* `Routes`    — the preview proxy gate, the process status handler and the
  app deletion handler.

State is passed explicitly; the JavaScript `Map<number, RunningProcess>` is
embedded as an association list in insertion order.
-/

namespace NodePath

/-- Splits a character list on the posix separator, keeping empty segments,
exactly like `s.split("/")`. `cur` holds the characters of the segment being
read, in reverse order. -/
def splitOnSlashAux : List Char → List Char → List String
  | [], cur => [String.mk cur.reverse]
  | '/' :: rest, cur => String.mk cur.reverse :: splitOnSlashAux rest []
  | c :: rest, cur => splitOnSlashAux rest (c :: cur)

/-- All `/`-separated segments of a string (empty segments included). -/
def splitOnSlash (s : String) : List String :=
  splitOnSlashAux s.toList []

/-- One pass of Node's `normalizeString`: drops empty and `.` segments,
resolves `..` against the already-emitted segments (held in `acc` in reverse
order), and keeps leading `..` segments only when `allowAboveRoot` is set
(Node sets it exactly for relative paths). -/
def normSegs (allowAboveRoot : Bool) : List String → List String → List String
  | [], acc => acc.reverse
  | seg :: rest, acc =>
    if seg = "" ∨ seg = "." then
      normSegs allowAboveRoot rest acc
    else if seg = ".." then
      match acc with
      | top :: tail =>
        if top = ".." then
          normSegs allowAboveRoot rest (if allowAboveRoot then ".." :: top :: tail else top :: tail)
        else
          normSegs allowAboveRoot rest tail
      | [] => normSegs allowAboveRoot rest (if allowAboveRoot then [".."] else [])
    else
      normSegs allowAboveRoot rest (seg :: acc)

/-- Whether the string starts with the posix separator. -/
def startsWithSlash (s : String) : Bool :=
  match s.toList with
  | '/' :: _ => true
  | _ => false

/-- Whether the string ends with the posix separator. -/
def endsWithSlash (s : String) : Bool :=
  match s.toList.getLast? with
  | some '/' => true
  | _ => false

/-- Joins segments back with `/`. -/
def joinSegs : List String → String
  | [] => ""
  | [s] => s
  | s :: rest => s ++ "/" ++ joinSegs rest

/-- Node's posix `path.normalize`. -/
def normalize (p : String) : String :=
  if p = "" then "."
  else
    let isAbs := startsWithSlash p
    let trailingSep := endsWithSlash p
    let core := joinSegs (normSegs (!isAbs) (splitOnSlash p) [])
    if core = "" then
      if isAbs then "/" else if trailingSep then "./" else "."
    else
      (if isAbs then "/" ++ core else core) ++ (if trailingSep then "/" else "")

/-- Node's posix `path.join` restricted to the two-argument uses in the
source (`path.join(this.basePath, normalized)`): concatenate the non-empty
arguments with `/` and normalize. -/
def join (a b : String) : String :=
  if a = "" ∧ b = "" then "."
  else if a = "" then normalize b
  else if b = "" then normalize a
  else normalize (a ++ "/" ++ b)

end NodePath

namespace Storage

/-- The effect of the sanitizer regex on line 31 of storage/index.ts,
`.replace(/^(\.\.[\/\\])+/, "")`: removes the maximal leading run of
`../` (or `..\`) groups. -/
def stripTraversalChars : List Char → List Char
  | '.' :: '.' :: '/' :: rest => stripTraversalChars rest
  | '.' :: '.' :: '\\' :: rest => stripTraversalChars rest
  | l => l

/-- String form of `stripTraversalChars`. -/
def stripTraversal (s : String) : String :=
  String.mk (stripTraversalChars s.toList)

/-- The method `Storage.getFullPath` (storage/index.ts lines 29-33):
`path.join(this.basePath, path.normalize(relativePath).replace(/^(\.\.[\/\\])+/, ""))`.
Every operation of the class resolves its input through this function and
performs its filesystem call at the result; no branch of the class raises a
forbidden-path error. -/
def getFullPath (basePath relativePath : String) : String :=
  NodePath.join basePath (stripTraversal (NodePath.normalize relativePath))

/-- The path at which `Storage.listFiles(dirPath)` calls `fs.readdir`
(storage/index.ts lines 101-105). -/
def listFilesTarget (basePath dirPath : String) : String :=
  getFullPath basePath dirPath

/-- The path at which `Storage.stat(filePath)` calls `fs.stat`
(storage/index.ts lines 198-201). -/
def statTarget (basePath filePath : String) : String :=
  getFullPath basePath filePath

/-- Whether `q` lies at or below the directory `root` (paths compared after
normalizing the root, as both sides are resolved relative to the same
working directory). -/
def isDescendant (root q : String) : Bool :=
  let r := NodePath.normalize root
  q == r || List.isPrefixOf (r ++ "/").toList q.toList

end Storage

namespace GenStream

/-- A persisted message row (the slice of the messages table the stream
handler touches). -/
structure Msg where
  role : String
  content : String
  deriving DecidableEq, Repr

/-- One SSE frame of the generation stream, as written on lines 103-260 of
stream.ts (`data: <json>\n\n`). Only the payload fields the claims speak
about are carried. -/
inductive Frame where
  | streamId
  | statusF (message : String)
  | message (role : String) (content : String)
  | chunk (content : String) (fullContent : String)
  | fileUpdate (path : String)
  | endFrame (content : String)
  | errorF (error : String)
  deriving DecidableEq, Repr

/-- One read of `abortController.signal.aborted`. The signal reads are
numbered; `ab = some m` means the cancellation (`controller.abort()`) lands
before read number `m`, so read `i` observes `true` exactly when `m ≤ i`;
`ab = none` means the stream is never cancelled. -/
def abortRead (ab : Option Nat) (i : Nat) : Bool :=
  match ab with
  | some m => decide (m ≤ i)
  | none => false

/-- The `for await (const chunk of result.textStream)` loop of stream.ts
lines 211-224: before consuming chunk number `i` the handler reads the
abort signal (read `i`) and breaks when it is set; otherwise it appends the
chunk to `fullResponse` and writes a `chunk` frame carrying the chunk and
the accumulated text. Returns the emitted frames and the final
`fullResponse`. -/
def chunkLoop (ab : Option Nat) : List String → Nat → String → List Frame × String
  | [], _, acc => ([], acc)
  | c :: cs, i, acc =>
    if abortRead ab i then ([], acc)
    else
      let r := chunkLoop ab cs (i + 1) (acc ++ c)
      (Frame.chunk c (acc ++ c) :: r.1, r.2)

/-- The outcome of one run of the `POST /stream/:chatId` handler after the
ownership and initialization preamble: the SSE frames written, the message
rows inserted, and the messages table afterwards. The handler never deletes
or updates an existing row, so the table after the run is the prior rows
followed by the inserts. -/
structure StreamOut where
  frames : List Frame
  userInserted : List Msg
  assistantInserted : List Msg
  messagesAfter : List Msg
  deriving DecidableEq, Repr

/-- The body of the `POST /stream/:chatId` handler, stream.ts lines
143-257, for a run whose model stream yields the textual chunks `chunks`:

* lines 143-155: insert and echo the user message unless `redo` is set or
  `prompt` is empty (`!redo && prompt`);
* line 173: write the `streamId` frame;
* lines 211-224: the chunk loop (`chunkLoop`);
* lines 227-244: insert the assistant row and write the `end` frame only
  when `fullResponse` is non-empty and the abort signal (read after the
  loop, read number `chunks.length`) is unset;
* line 257: `res.end()` — the response is always closed. -/
def runStream (initialMsgs : List Msg) (prompt : String) (redo : Bool)
    (chunks : List String) (ab : Option Nat) : StreamOut :=
  let userIns : List Msg :=
    if redo = false ∧ prompt ≠ "" then [⟨"user", prompt⟩] else []
  let echoFrames : List Frame := userIns.map fun m => Frame.message m.role m.content
  let r := chunkLoop ab chunks 0 ""
  let saved : List Msg :=
    if r.2 ≠ "" ∧ abortRead ab chunks.length = false then [⟨"assistant", r.2⟩] else []
  let endFrames : List Frame := saved.map fun m => Frame.endFrame m.content
  { frames := echoFrames ++ Frame.streamId :: r.1 ++ endFrames
    userInserted := userIns
    assistantInserted := saved
    messagesAfter := initialMsgs ++ userIns ++ saved }

/-- Extracts the `(content, fullContent)` payloads of the chunk frames of a
run, in emission order. -/
def chunkExtract (fr : Frame) : Option (String × String) :=
  match fr with
  | Frame.chunk c f => some (c, f)
  | _ => none

/-- Payloads of all chunk frames written by a run. -/
def chunkPairs (out : StreamOut) : List (String × String) :=
  out.frames.filterMap chunkExtract

/-- The accumulation discipline of the chunk frames: starting from the
accumulated text `acc`, each frame's `fullContent` is the previous
accumulated text extended by its own `content`. -/
def chainedFrom : String → List (String × String) → Prop
  | _, [] => True
  | acc, (c, f) :: rest => f = acc ++ c ∧ chainedFrom f rest

/-- Payloads of the chunk frames of one handler run. -/
def streamChunks (initialMsgs : List Msg) (prompt : String) (redo : Bool)
    (chunks : List String) (ab : Option Nat) : List (String × String) :=
  chunkPairs (runStream initialMsgs prompt redo chunks ab)

end GenStream

theorem string_empty_append (s : String) : "" ++ s = s := rfl

/-- Every frame emitted by the chunk loop is a chunk frame. -/
theorem chunkLoop_mem (ab : Option Nat) :
    ∀ (cs : List String) (i : Nat) (acc : String) (fr : GenStream.Frame),
      fr ∈ (GenStream.chunkLoop ab cs i acc).1 → ∃ c f, fr = GenStream.Frame.chunk c f := by
  intro cs
  induction cs with
  | nil => intro i acc fr h; simp [GenStream.chunkLoop] at h
  | cons c cs ih =>
    intro i acc fr h
    rw [GenStream.chunkLoop] at h
    by_cases hab : GenStream.abortRead ab i = true
    · simp [hab] at h
    · simp only [Bool.not_eq_true] at hab
      simp only [hab, Bool.false_eq_true, if_false, List.mem_cons] at h
      rcases h with h | h
      · exact ⟨c, acc ++ c, h⟩
      · exact ih _ _ _ h

/-- The chunk frames of the loop, started with accumulator `acc`, chain
from `acc`. -/
theorem chunkLoop_chained (ab : Option Nat) :
    ∀ (cs : List String) (i : Nat) (acc : String),
      GenStream.chainedFrom acc
        (((GenStream.chunkLoop ab cs i acc).1).filterMap GenStream.chunkExtract) := by
  intro cs
  induction cs with
  | nil => intro i acc; simp [GenStream.chunkLoop, GenStream.chainedFrom]
  | cons c cs ih =>
    intro i acc
    rw [GenStream.chunkLoop]
    by_cases hab : GenStream.abortRead ab i = true
    · simp [hab, GenStream.chainedFrom]
    · simp only [Bool.not_eq_true] at hab
      simp only [hab, Bool.false_eq_true, if_false, List.filterMap_cons,
        GenStream.chunkExtract, GenStream.chainedFrom]
      exact ⟨by simp, ih (i + 1) (acc ++ c)⟩

/-- In a chained list, the first payload's accumulated text is the start
accumulator extended by its content. -/
theorem chainedFrom_head (acc : String) (l : List (String × String))
    (h : GenStream.chainedFrom acc l) (hl : 0 < l.length) :
    (l.get ⟨0, hl⟩).2 = acc ++ (l.get ⟨0, hl⟩).1 := by
  cases l with
  | nil => simp at hl
  | cons p rest =>
    obtain ⟨c, f⟩ := p
    exact h.1

/-- In a chained list, each payload's accumulated text is the previous
payload's accumulated text extended by its own content. -/
theorem chainedFrom_adj :
    ∀ (l : List (String × String)) (acc : String), GenStream.chainedFrom acc l →
      ∀ (i : Nat) (h : i + 1 < l.length),
        (l.get ⟨i + 1, h⟩).2 =
          (l.get ⟨i, Nat.lt_of_succ_lt h⟩).2 ++ (l.get ⟨i + 1, h⟩).1 := by
  intro l
  induction l with
  | nil => intro acc _ i h; simp at h
  | cons p rest ih =>
    intro acc hc i h
    obtain ⟨c, f⟩ := p
    cases i with
    | zero =>
      have hrl : 0 < rest.length := Nat.lt_of_succ_lt_succ h
      simpa using chainedFrom_head f rest hc.2 hrl
    | succ j =>
      have h2 : j + 1 < rest.length := Nat.lt_of_succ_lt_succ h
      simpa using ih f hc.2 j h2

/-- Message frames contribute no chunk payloads. -/
theorem filterMap_chunkExtract_message (l : List GenStream.Msg) :
    List.filterMap (GenStream.chunkExtract ∘ fun m => GenStream.Frame.message m.role m.content) l
      = [] := by
  induction l with
  | nil => rfl
  | cons x xs ih => simp [GenStream.chunkExtract, ih]

/-- End frames contribute no chunk payloads. -/
theorem filterMap_chunkExtract_endFrame (l : List GenStream.Msg) :
    List.filterMap (GenStream.chunkExtract ∘ fun m => GenStream.Frame.endFrame m.content) l
      = [] := by
  induction l with
  | nil => rfl
  | cons x xs ih => simp [GenStream.chunkExtract, ih]

/-- The chunk payloads of a run are exactly those of its chunk loop: the
echo, streamId and end frames contribute none. -/
theorem streamChunks_eq (initialMsgs : List GenStream.Msg) (prompt : String)
    (redo : Bool) (chunks : List String) (ab : Option Nat) :
    GenStream.streamChunks initialMsgs prompt redo chunks ab =
      ((GenStream.chunkLoop ab chunks 0 "").1).filterMap GenStream.chunkExtract := by
  simp [GenStream.streamChunks, GenStream.chunkPairs, GenStream.runStream,
    List.filterMap_append, List.filterMap_cons, List.filterMap_map,
    GenStream.chunkExtract, filterMap_chunkExtract_message, filterMap_chunkExtract_endFrame]

/-- C3: if the generation stream is cancelled — its abort signal is set by
read number `m`, no later than the final read at position
`chunks.length`, i.e. before the text stream completes — then no
assistant message row is inserted and no `end` frame is written (the SSE
response is closed by the unconditional `res.end()`). -/
theorem c3_cancel_no_persist (initialMsgs : List GenStream.Msg) (prompt : String)
    (redo : Bool) (chunks : List String) (m : Nat) (hm : m ≤ chunks.length) :
    (GenStream.runStream initialMsgs prompt redo chunks (some m)).assistantInserted = [] ∧
    ∀ s, GenStream.Frame.endFrame s ∉
      (GenStream.runStream initialMsgs prompt redo chunks (some m)).frames := by
  have hab : GenStream.abortRead (some m) chunks.length = true := by
    simp [GenStream.abortRead, hm]
  refine ⟨by simp [GenStream.runStream, hab], ?_⟩
  intro s hmem
  simp only [GenStream.runStream, hab, Bool.true_eq_false, and_false, if_false,
    List.map_nil, List.append_nil, List.mem_append, List.mem_cons, List.mem_map] at hmem
  rcases hmem with ⟨x, _, hx⟩ | h | h
  · exact GenStream.Frame.noConfusion hx
  · exact GenStream.Frame.noConfusion h
  · obtain ⟨c, f, hcf⟩ := chunkLoop_mem (some m) chunks 0 "" _ h
    exact GenStream.Frame.noConfusion hcf

/-- Witness for C3 at a concrete cancelled run: two chunks, cancellation
observed at read 1. -/
theorem c3_cancel_no_persist_witness :
    (GenStream.runStream [] "p" false ["a", "b"] (some 1)).assistantInserted = [] ∧
    GenStream.Frame.endFrame "a" ∉
      (GenStream.runStream [] "p" false ["a", "b"] (some 1)).frames := by
  have h := c3_cancel_no_persist [] "p" false ["a", "b"] 1 (by decide)
  exact ⟨h.1, h.2 "a"⟩

/-- C8: in every run, the first chunk frame's `fullContent` equals its
`content`, and each later chunk frame's `fullContent` is the previous
frame's `fullContent` concatenated with its own `content`. -/
theorem c8_chunk_accumulation (initialMsgs : List GenStream.Msg) (prompt : String)
    (redo : Bool) (chunks : List String) (ab : Option Nat) :
    (∀ hl : 0 < (GenStream.streamChunks initialMsgs prompt redo chunks ab).length,
      ((GenStream.streamChunks initialMsgs prompt redo chunks ab).get ⟨0, hl⟩).2 =
        ((GenStream.streamChunks initialMsgs prompt redo chunks ab).get ⟨0, hl⟩).1) ∧
    (∀ (i : Nat) (h : i + 1 < (GenStream.streamChunks initialMsgs prompt redo chunks ab).length),
      ((GenStream.streamChunks initialMsgs prompt redo chunks ab).get ⟨i + 1, h⟩).2 =
        ((GenStream.streamChunks initialMsgs prompt redo chunks ab).get ⟨i, Nat.lt_of_succ_lt h⟩).2 ++
          ((GenStream.streamChunks initialMsgs prompt redo chunks ab).get ⟨i + 1, h⟩).1) := by
  have hc : GenStream.chainedFrom "" (GenStream.streamChunks initialMsgs prompt redo chunks ab) := by
    rw [streamChunks_eq]
    exact chunkLoop_chained ab chunks 0 ""
  refine ⟨?_, ?_⟩
  · intro hl
    have h0 := chainedFrom_head "" _ hc hl
    rw [h0, string_empty_append]
  · intro i h
    exact chainedFrom_adj _ "" hc i h

/-- Witness for C8 at a concrete two-chunk run. -/
theorem c8_chunk_accumulation_witness :
    ((GenStream.streamChunks [] "p" false ["a", "b"] none).get ⟨0, by decide⟩).2 =
      ((GenStream.streamChunks [] "p" false ["a", "b"] none).get ⟨0, by decide⟩).1 ∧
    ((GenStream.streamChunks [] "p" false ["a", "b"] none).get ⟨1, by decide⟩).2 =
      ((GenStream.streamChunks [] "p" false ["a", "b"] none).get ⟨0, by decide⟩).2 ++
        ((GenStream.streamChunks [] "p" false ["a", "b"] none).get ⟨1, by decide⟩).1 := by
  have h := c8_chunk_accumulation [] "p" false ["a", "b"] none
  exact ⟨h.1 (by decide), h.2 0 (by decide)⟩

/-- C10 counterexample: a `redo` run that completes without cancellation
(`ab = none`) but whose model stream produced no text chunks (for example
a pure tool-call completion). Lines 227-244 guard the assistant insert
with `if (fullResponse && …)`, so nothing is appended — refuting the
claim that exactly one assistant message is appended on every successful
uncancelled completion. -/
theorem c10_redo_counterexample :
    (GenStream.runStream [] "p" true [] none).userInserted = [] ∧
    (GenStream.runStream [] "p" true [] none).assistantInserted = [] ∧
    ¬((GenStream.runStream [] "p" true [] none).assistantInserted.length = 1) := by
  decide

/-- C10 amended: for every stream request with `redo = true`, no user
message row is inserted and no existing row is deleted or modified (the
table afterwards is the prior rows plus the inserts); on successful
uncancelled completion whose accumulated text is non-empty, exactly one
new assistant message is appended — a completion with empty accumulated
text appends none. -/
theorem c10_redo_frame (initialMsgs : List GenStream.Msg) (prompt : String)
    (chunks : List String) (ab : Option Nat) :
    (GenStream.runStream initialMsgs prompt true chunks ab).userInserted = [] ∧
    (GenStream.runStream initialMsgs prompt true chunks ab).messagesAfter =
      initialMsgs ++ (GenStream.runStream initialMsgs prompt true chunks ab).assistantInserted ∧
    (ab = none → (GenStream.chunkLoop none chunks 0 "").2 ≠ "" →
      (GenStream.runStream initialMsgs prompt true chunks ab).assistantInserted =
        [⟨"assistant", (GenStream.chunkLoop none chunks 0 "").2⟩]) := by
  refine ⟨by simp [GenStream.runStream], by simp [GenStream.runStream], ?_⟩
  rintro rfl hne
  simp [GenStream.runStream, GenStream.abortRead, hne]

/-- Witness for C10 amended: a `redo` run over one prior assistant row,
one chunk, no cancellation. -/
theorem c10_redo_frame_witness :
    (GenStream.runStream [⟨"assistant", "old"⟩] "p" true ["hi"] none).userInserted = [] ∧
    (GenStream.runStream [⟨"assistant", "old"⟩] "p" true ["hi"] none).messagesAfter =
      [⟨"assistant", "old"⟩] ++
        (GenStream.runStream [⟨"assistant", "old"⟩] "p" true ["hi"] none).assistantInserted ∧
    (GenStream.runStream [⟨"assistant", "old"⟩] "p" true ["hi"] none).assistantInserted =
      [⟨"assistant", (GenStream.chunkLoop none ["hi"] 0 "").2⟩] := by
  have h := c10_redo_frame [⟨"assistant", "old"⟩] "p" ["hi"] none
  exact ⟨h.1, h.2.1, h.2.2 rfl (by decide)⟩

namespace ProcMgr

/-- Line 168 of the process-manager source: ports are assigned from 3002. -/
def startPort : Nat := 3002

/-- Line 169: at most 100 concurrent apps. -/
def maxPorts : Nat := 100

/-- The `processes : Map<number, RunningProcess>` of the `ProcessManager`,
embedded as an association list `appId ↦ port` in insertion order (the
child handle and start time play no role in the claims). -/
abbrev ProcMap := List (Nat × Nat)

/-- Lookup in the lease map (`this.processes.get(appId)?.port`, also
`getAppPort`, line 274-276). -/
def mapGet (s : ProcMap) (a : Nat) : Option Nat :=
  (s.find? fun e => e.1 == a).map (·.2)

/-- Insertion into the lease map (`this.processes.set(appId, …)`, line
238): JavaScript map semantics, replacing in place when the key is present
and appending otherwise. -/
def mapSet (s : ProcMap) (a p : Nat) : ProcMap :=
  if s.any (fun e => e.1 == a) then
    s.map fun e => if e.1 == a then (a, p) else e
  else
    s ++ [(a, p)]

/-- Removal from the lease map (`this.processes.delete(appId)`, lines 257
and 267). -/
def mapDelete (s : ProcMap) (a : Nat) : ProcMap :=
  s.filter fun e => e.1 != a

/-- Line 185: the set of ports currently held by leases
(`Array.from(this.processes.values()).map(p => p.port)`). -/
def usedPorts (s : ProcMap) : List Nat :=
  s.map (·.2)

/-- The loop body of `getAvailablePort` (lines 184-191): try
`startPort + i`, `startPort + i + 1`, … while `fuel` iterations remain,
returning the first port not in `used`; the source throws
"No available ports for new processes" when the loop ends, embedded as
`none`. -/
def getAvailablePortAux (used : List Nat) : Nat → Nat → Option Nat
  | 0, _ => none
  | fuel + 1, i =>
    if startPort + i ∈ used then getAvailablePortAux used fuel (i + 1)
    else some (startPort + i)

/-- Full `getAvailablePort` (lines 184-191): scan the `maxPorts` candidate
ports from `startPort` upward against the currently used ports. -/
def getAvailablePort (s : ProcMap) : Option Nat :=
  getAvailablePortAux (usedPorts s) maxPorts 0

/-- Ways `startApp` can throw (lines 190, 207, 226). -/
inductive StartErr where
  | noPorts
  | notInitialized
  | installFailed
  deriving DecidableEq, Repr

/-- Result of a `startApp` call. -/
inductive StartRes where
  | ok (port : Nat)
  | err (e : StartErr)
  deriving DecidableEq, Repr

/-- Observable outcome of one `startApp(userId, appId)` call: the returned
port or thrown error, the lease map afterwards, and whether `npm install`
(line 218) and `spawn` (line 232) ran. -/
structure StartOutcome where
  result : StartRes
  procs : ProcMap
  ranInstall : Bool
  spawned : Bool
  deriving DecidableEq, Repr

/-- One `startApp(userId, appId)` call (lines 193-261) run to completion
with no interleaved call (the serialized semantics). The environment is
summarized by three booleans: `hasPkg` — `package.json` exists at the
workspace root (line 205); `hasNM` — `node_modules` exists (line 214);
`installOk` — `npm install` exits successfully (line 218). Control flow of
the source, in order: return the existing lease's port if one exists
(lines 195-197); pick a port (line 199); throw "not initialized" when the
marker file is absent (lines 204-208); install dependencies when
`node_modules` is absent, throwing on failure (lines 213-228); spawn the
dev server and record the lease (lines 232-243). -/
def startAppAtomic (s : ProcMap) (hasPkg hasNM installOk : Bool) (a : Nat) : StartOutcome :=
  match mapGet s a with
  | some port => ⟨.ok port, s, false, false⟩
  | none =>
    match getAvailablePort s with
    | none => ⟨.err .noPorts, s, false, false⟩
    | some port =>
      if hasPkg then
        if hasNM then
          ⟨.ok port, mapSet s a port, false, true⟩
        else if installOk then
          ⟨.ok port, mapSet s a port, true, true⟩
        else
          ⟨.err .installFailed, s, true, false⟩
      else
        ⟨.err .notInitialized, s, false, false⟩

/-- The lease maps reachable when every `startApp` runs to completion
before the next operation begins (serialized executions). `stop` covers
both `stopApp` (lines 263-272) and the child-exit handler (lines 255-258),
which perform the same map removal. -/
inductive ReachableA : ProcMap → Prop where
  | init : ReachableA []
  | start (s : ProcMap) (hasPkg hasNM installOk : Bool) (a : Nat) :
      ReachableA s → ReachableA (startAppAtomic s hasPkg hasNM installOk a).procs
  | stop (s : ProcMap) (a : Nat) :
      ReachableA s → ReachableA (mapDelete s a)

/-- A state of the interleaved (event-loop) semantics of `startApp`. A
call that has passed the `has(appId)` check and computed its port (the
synchronous prefix, lines 195-199) but is suspended at the first `await`
(`fs.access`, line 205) is recorded in `pend`; its commit (lines 232-243)
later installs the lease computed from the map as it was at suspension
time. -/
structure IState where
  procs : ProcMap
  pend : List (Nat × Nat)
  deriving DecidableEq, Repr

/-- States reachable under the actual event-loop semantics of the source:
`startApp` reads the lease map and picks its port synchronously (lines
195-199), then suspends at `await fs.access(...)` (line 205), and only
after resuming writes the lease (line 238). Between suspension and commit,
other calls may run. -/
inductive ReachableI : IState → Prop where
  | init : ReachableI ⟨[], []⟩
  | beginStart (s : IState) (a p : Nat) :
      ReachableI s → mapGet s.procs a = none → getAvailablePort s.procs = some p →
      ReachableI ⟨s.procs, s.pend ++ [(a, p)]⟩
  | commitStart (s : IState) (a p : Nat) :
      ReachableI s → (a, p) ∈ s.pend →
      ReachableI ⟨mapSet s.procs a p, s.pend.erase (a, p)⟩
  | stop (s : IState) (a : Nat) :
      ReachableI s → ReachableI ⟨mapDelete s.procs a, s.pend⟩

end ProcMgr

namespace Routes

/-- Outcome of one request through the preview router middleware
(preview.ts lines 13-58): either a plain HTTP response written by the
handler itself, or a hand-off to `createProxyMiddleware` targeting
`http://localhost:<port>`. -/
inductive PreviewOutcome where
  | resp (status : Nat) (body : String)
  | proxy (port : Nat)
  deriving DecidableEq, Repr

/-- The HTML template literal sent with status 503 (preview.ts lines
32-37). -/
def notRunningBody : String :=
  "\n            <html>\n                <head><meta http-equiv=\"refresh\" content=\"2\"></head>\n                <body>App is not running. Please start it from the editor.</body>\n            </html>\n        "

/-- Whether `pat` occurs inside `l`. -/
def hasSub (pat : List Char) : List Char → Bool
  | [] => List.isPrefixOf pat []
  | c :: rest => List.isPrefixOf pat (c :: rest) || hasSub pat rest

/-- Whether an HTML body carries the self-refresh directive
(`<meta http-equiv="refresh" …>`). -/
def selfRefreshing (body : String) : Bool :=
  hasSub "http-equiv=\"refresh\"".toList body.toList

/-- The preview router middleware (preview.ts lines 13-58): look up the
lease port for the workspace; when a port exists, hand off to the reverse
proxy targeting the loopback interface; when none exists, answer 404 if
the workspace is not in the apps table and otherwise 503 with the
self-refreshing body. (The database lookup is modelled as the membership
test its successful query performs.) -/
def previewHandler (procs : ProcMgr.ProcMap) (dbAppIds : List Nat) (appId : Nat) :
    PreviewOutcome :=
  match ProcMgr.mapGet procs appId with
  | some port => .proxy port
  | none =>
    if appId ∈ dbAppIds then .resp 503 notRunningBody
    else .resp 404 "App not found"

/-- The JSON body of `GET /process/:appId/status` (process.ts lines
63-67). -/
structure StatusResp where
  running : Bool
  port : Option Nat
  previewUrl : Option String
  deriving DecidableEq, Repr

/-- The `GET /process/:appId/status` handler (process.ts lines 60-68). The
authenticated caller `userId` is available on the request but never read:
unlike the start and stop handlers there is no ownership query. -/
def statusHandler (userId : Nat) (procs : ProcMgr.ProcMap) (appId : Nat) : StatusResp :=
  let port := ProcMgr.mapGet procs appId
  { running := port.isSome
    port := port
    previewUrl := match port with
      | some _ => some ("/preview/" ++ toString appId)
      | none => none }

/-- Observable outcome of one `DELETE /apps/:id` request: the HTTP status,
the apps table afterwards (rows are `(appId, ownerUserId)`), and the set
of workspace directories present in storage afterwards. -/
structure DeleteOutcome where
  status : Nat
  dbApps : List (Nat × Nat)
  dirs : List String
  deriving DecidableEq, Repr

/-- `Storage.getUserAppPath` (storage/index.ts lines 215-217):
`path.join("apps", userId.toString(), appId.toString())`, which for the
decimal renderings involved is plain slash concatenation. -/
def getUserAppPath (userId appId : Nat) : String :=
  "apps/" ++ toString userId ++ "/" ++ toString appId

/-- The `DELETE /apps/:id` handler (apps route, part_015 lines 329-351):
verify ownership via a lookup keyed on both id and owner, answering 404
when absent; otherwise delete the row and answer success. The handler
performs no storage call, so the directory list is returned unchanged. -/
def deleteAppHandler (dbApps : List (Nat × Nat)) (dirs : List String)
    (userId appId : Nat) : DeleteOutcome :=
  match dbApps.find? (fun e => e.1 == appId && e.2 == userId) with
  | none => ⟨404, dbApps, dirs⟩
  | some _ => ⟨200, dbApps.filter (fun e => e.1 != appId), dirs⟩

end Routes

/-- C1: the claim says every Storage operation on a path whose normalized
absolute resolution is not a descendant of the storage base root fails
with a forbidden-path error and performs no filesystem I/O outside the
root. The sanitizer of `Storage.getFullPath` contradicts the intent stated
in its own comment ("Prevent path traversal attacks"): the input `".."`
normalizes to `".."`, which the regex (matching only `"../"` groups)
leaves intact, and `path.join("./data", "..")` resolves to `"."` — the
parent of the storage root. `listFiles("..")` therefore calls `fs.readdir`
on that outside directory (and `stat("..")` calls `fs.stat` there), and no
code path raises a forbidden-path error. -/
theorem c1_storage_path_escape :
    Storage.getFullPath "./data" ".." = "." ∧
    Storage.isDescendant "./data" (Storage.getFullPath "./data" "..") = false ∧
    Storage.listFilesTarget "./data" ".." = "." ∧
    Storage.statTarget "./data" "a/../.." = "." := by
  decide

/-- C2 counterexample: a state with one app row `(id 1, owner 10)` whose
workspace directory `apps/10/1` exists in storage. The owner's
`DELETE /apps/1` succeeds and removes the database row, but the workspace
root directory is still present afterwards — refuting the claim that the
directory is deleted along with the row. -/
theorem c2_delete_app_counterexample :
    (Routes.deleteAppHandler [(1, 10)] [Routes.getUserAppPath 10 1] 10 1).status = 200 ∧
    (Routes.deleteAppHandler [(1, 10)] [Routes.getUserAppPath 10 1] 10 1).dbApps = [] ∧
    Routes.getUserAppPath 10 1 ∈
      (Routes.deleteAppHandler [(1, 10)] [Routes.getUserAppPath 10 1] 10 1).dirs := by
  decide

/-- C2 amended: when a workspace is deleted via DELETE /apps/:id by its
owner, the database row is removed and success is returned, but the
handler performs no storage deletion — the workspace's root directory in
storage is left exactly as it was. -/
theorem c2_delete_app_amended (dbApps : List (Nat × Nat)) (dirs : List String)
    (userId appId : Nat) (row : Nat × Nat)
    (hOwned : dbApps.find? (fun e => e.1 == appId && e.2 == userId) = some row) :
    (Routes.deleteAppHandler dbApps dirs userId appId).status = 200 ∧
    (Routes.deleteAppHandler dbApps dirs userId appId).dbApps =
      dbApps.filter (fun e => e.1 != appId) ∧
    (Routes.deleteAppHandler dbApps dirs userId appId).dirs = dirs := by
  simp [Routes.deleteAppHandler, hOwned]

/-- Witness for C2 amended at the concrete state of the counterexample. -/
theorem c2_delete_app_amended_witness :
    (Routes.deleteAppHandler [(1, 10)] [Routes.getUserAppPath 10 1] 10 1).status = 200 ∧
    (Routes.deleteAppHandler [(1, 10)] [Routes.getUserAppPath 10 1] 10 1).dbApps =
      [(1, 10)].filter (fun e => e.1 != 1) ∧
    (Routes.deleteAppHandler [(1, 10)] [Routes.getUserAppPath 10 1] 10 1).dirs =
      [Routes.getUserAppPath 10 1] :=
  c2_delete_app_amended [(1, 10)] [Routes.getUserAppPath 10 1] 10 1 (1, 10) (by decide)

theorem nodup_append_single {α : Type} (l : List α) (x : α)
    (hl : l.Nodup) (hx : x ∉ l) : (l ++ [x]).Nodup := by
  have hperm : List.Perm (l ++ [x]) (x :: l) := List.perm_append_singleton x l
  exact hperm.nodup_iff.mpr (List.nodup_cons.mpr ⟨hx, hl⟩)

/-- When the port scan returns a port, that port is unused, lies in the
scanned window, and every smaller candidate in the window is used. -/
theorem getAvailablePortAux_some (used : List Nat) :
    ∀ (fuel i p : Nat), ProcMgr.getAvailablePortAux used fuel i = some p →
      p ∉ used ∧ ProcMgr.startPort + i ≤ p ∧ p < ProcMgr.startPort + i + fuel ∧
      ∀ q, ProcMgr.startPort + i ≤ q → q < p → q ∈ used := by
  intro fuel
  induction fuel with
  | zero => intro i p h; simp [ProcMgr.getAvailablePortAux] at h
  | succ fuel ih =>
    intro i p h
    rw [ProcMgr.getAvailablePortAux] at h
    by_cases hm : ProcMgr.startPort + i ∈ used
    · rw [if_pos hm] at h
      obtain ⟨h1, h2, h3, h4⟩ := ih (i + 1) p h
      refine ⟨h1, by omega, by omega, ?_⟩
      intro q hq1 hq2
      by_cases hq : q = ProcMgr.startPort + i
      · exact hq ▸ hm
      · exact h4 q (by omega) hq2
    · rw [if_neg hm] at h
      injection h with h
      subst h
      exact ⟨hm, Nat.le_refl _, by omega, fun q hq1 hq2 => absurd hq2 (by omega)⟩

/-- When the port scan fails, every candidate in the scanned window is
used. -/
theorem getAvailablePortAux_none (used : List Nat) :
    ∀ (fuel i : Nat), ProcMgr.getAvailablePortAux used fuel i = none →
      ∀ q, ProcMgr.startPort + i ≤ q → q < ProcMgr.startPort + i + fuel → q ∈ used := by
  intro fuel
  induction fuel with
  | zero => intro i _ q h1 h2; omega
  | succ fuel ih =>
    intro i h q h1 h2
    rw [ProcMgr.getAvailablePortAux] at h
    by_cases hm : ProcMgr.startPort + i ∈ used
    · rw [if_pos hm] at h
      by_cases hq : q = ProcMgr.startPort + i
      · exact hq ▸ hm
      · exact ih (i + 1) h q (by omega) (by omega)
    · rw [if_neg hm] at h
      exact absurd h (by simp)

/-- Absence in the lease map means no entry carries the key. -/
theorem mapGet_none_iff (s : ProcMgr.ProcMap) (a : Nat) :
    ProcMgr.mapGet s a = none ↔ ∀ e ∈ s, e.1 ≠ a := by
  simp [ProcMgr.mapGet, List.find?_eq_none]

/-- A successful lease lookup names an entry of the map. -/
theorem mapGet_some_mem (s : ProcMgr.ProcMap) (a p : Nat)
    (h : ProcMgr.mapGet s a = some p) : (a, p) ∈ s := by
  simp only [ProcMgr.mapGet, Option.map_eq_some'] at h
  obtain ⟨e, he, hp⟩ := h
  have h1 := List.find?_some he
  have h2 : e ∈ s := List.mem_of_find?_eq_some he
  have h3 : e.1 = a := by simpa using h1
  have : e = (a, p) := by
    cases e
    simp_all
  exact this ▸ h2

/-- Setting an absent key appends the new entry. -/
theorem mapSet_append (s : ProcMgr.ProcMap) (a p : Nat)
    (h : ∀ e ∈ s, e.1 ≠ a) : ProcMgr.mapSet s a p = s ++ [(a, p)] := by
  have hany : s.any (fun e => e.1 == a) = false := by
    simp only [List.any_eq_false]
    intro e he
    simpa using h e he
  simp [ProcMgr.mapSet, hany]

/-- When the leased ports are pairwise distinct, the port determines the
workspace. -/
theorem snd_inj_of_nodup :
    ∀ (s : ProcMgr.ProcMap), (ProcMgr.usedPorts s).Nodup →
      ∀ a b p, (a, p) ∈ s → (b, p) ∈ s → a = b := by
  intro s
  induction s with
  | nil => intro _ a b p h; simp at h
  | cons x xs ih =>
    intro hnd a b p ha hb
    obtain ⟨hx, hxs⟩ : x.2 ∉ xs.map Prod.snd ∧ (xs.map Prod.snd).Nodup := by
      simpa [ProcMgr.usedPorts] using hnd
    rcases List.mem_cons.mp ha with ha | ha <;> rcases List.mem_cons.mp hb with hb | hb
    · have : (a, p) = (b, p) := ha.trans hb.symm
      simpa using congrArg Prod.fst this
    · exfalso
      apply hx
      rw [← ha]
      exact List.mem_map.mpr ⟨(b, p), hb, rfl⟩
    · exfalso
      apply hx
      rw [← hb]
      exact List.mem_map.mpr ⟨(a, p), ha, rfl⟩
    · exact ih (by simpa [ProcMgr.usedPorts] using hxs) a b p ha hb

/-- C4 counterexample: the claim asserts that at every reachable state no
two workspaces hold the same port. Under the real event-loop semantics two
`startApp` calls for workspaces 1 and 2 may both run their synchronous
prefix (lease-map check and port pick, lines 195-199) before either
resumes from `await fs.access` (line 205) and commits its lease (line
238); both pick port 3002 from the then-empty map, and the final lease map
holds port 3002 for both workspaces. -/
theorem c4_interleaved_counterexample :
    ProcMgr.ReachableI ⟨[(1, 3002), (2, 3002)], []⟩ ∧
    ¬(ProcMgr.usedPorts [(1, 3002), (2, 3002)]).Nodup := by
  constructor
  · exact ProcMgr.ReachableI.commitStart ⟨[(1, 3002)], [(2, 3002)]⟩ 2 3002
      (ProcMgr.ReachableI.commitStart ⟨[], [(1, 3002), (2, 3002)]⟩ 1 3002
        (ProcMgr.ReachableI.beginStart ⟨[], [(1, 3002)]⟩ 2 3002
          (ProcMgr.ReachableI.beginStart ⟨[], []⟩ 1 3002
            ProcMgr.ReachableI.init (by decide) (by decide))
          (by decide) (by decide))
        (by decide))
      (by decide)
  · decide

/-- C4 amended: when every `startApp` call runs to completion before the
next operation on the manager begins (serialized executions — the
property the interleaved counterexample shows the event-loop semantics
does not guarantee), every reachable lease map binds each workspace to at
most one lease and no two workspaces to the same port. -/
theorem c4_serialized_invariant (s : ProcMgr.ProcMap) (h : ProcMgr.ReachableA s) :
    (s.map Prod.fst).Nodup ∧ (ProcMgr.usedPorts s).Nodup := by
  induction h with
  | init => simp [ProcMgr.usedPorts]
  | start s hasPkg hasNM installOk a hs ih =>
    obtain ⟨ihk, ihp⟩ := ih
    cases hg : ProcMgr.mapGet s a with
    | some port =>
      simpa [ProcMgr.startAppAtomic, hg] using ⟨ihk, ihp⟩
    | none =>
      cases hp : ProcMgr.getAvailablePort s with
      | none =>
        simpa [ProcMgr.startAppAtomic, hg, hp] using ⟨ihk, ihp⟩
      | some p =>
        have hkey : ∀ e ∈ s, e.1 ≠ a := (mapGet_none_iff s a).1 hg
        have hnotmem : p ∉ ProcMgr.usedPorts s := by
          have hp2 : ProcMgr.getAvailablePortAux (ProcMgr.usedPorts s) ProcMgr.maxPorts 0
              = some p := hp
          exact (getAvailablePortAux_some (ProcMgr.usedPorts s) ProcMgr.maxPorts 0 p hp2).1
        have hset : ProcMgr.mapSet s a p = s ++ [(a, p)] := mapSet_append s a p hkey
        have hka : a ∉ s.map Prod.fst := by
          intro hmem
          obtain ⟨e, he, hfe⟩ := List.mem_map.mp hmem
          exact hkey e he hfe
        have hknew : ((s ++ [(a, p)]).map Prod.fst).Nodup := by
          rw [List.map_append]
          exact nodup_append_single _ _ ihk hka
        have hpnew : (ProcMgr.usedPorts (s ++ [(a, p)])).Nodup := by
          have : ProcMgr.usedPorts (s ++ [(a, p)]) = ProcMgr.usedPorts s ++ [p] := by
            simp [ProcMgr.usedPorts]
          rw [this]
          exact nodup_append_single _ _ ihp hnotmem
        have hgoal2 : ((s ++ [(a, p)]).map Prod.fst).Nodup ∧
            (ProcMgr.usedPorts (s ++ [(a, p)])).Nodup := ⟨hknew, hpnew⟩
        have hgoal1 : (s.map Prod.fst).Nodup ∧ (ProcMgr.usedPorts s).Nodup := ⟨ihk, ihp⟩
        cases hasPkg with
        | false =>
          simpa [ProcMgr.startAppAtomic, hg, hp] using hgoal1
        | true =>
          cases hasNM with
          | true =>
            simpa [ProcMgr.startAppAtomic, hg, hp, hset] using hgoal2
          | false =>
            cases installOk with
            | true => simpa [ProcMgr.startAppAtomic, hg, hp, hset] using hgoal2
            | false => simpa [ProcMgr.startAppAtomic, hg, hp] using hgoal1
  | stop s a hs ih =>
    obtain ⟨ihk, ihp⟩ := ih
    have hsub : List.Sublist (ProcMgr.mapDelete s a) s := List.filter_sublist s
    constructor
    · exact ihk.sublist (hsub.map Prod.fst)
    · exact ihp.sublist (hsub.map Prod.snd)

/-- Witness for C4 amended at the reachable state produced by one
successful start. -/
theorem c4_serialized_invariant_witness :
    (((ProcMgr.startAppAtomic [] true true true 5).procs).map Prod.fst).Nodup ∧
    (ProcMgr.usedPorts (ProcMgr.startAppAtomic [] true true true 5).procs).Nodup :=
  c4_serialized_invariant _
    (ProcMgr.ReachableA.start [] true true true 5 ProcMgr.ReachableA.init)

/-- C5 counterexample: the claim says that after `stop(W)` returns, the
port previously leased by W is again returnable by acquisition. In the
reachable duplicated-port state `[(1, 3002), (2, 3002)]` — produced by two
`startApp` calls whose synchronous port picks (line 199) both ran before
either lease commit (line 238) — workspace 1 holds port 3002; after
`stopApp(1)` removes workspace 1's lease, port 3002 is still held by
workspace 2, and a fresh acquisition returns 3003, not 3002: the port
previously leased by workspace 1 is not returnable. -/
theorem c5_stop_not_freeing_counterexample :
    ProcMgr.ReachableI ⟨[(1, 3002), (2, 3002)], []⟩ ∧
    ProcMgr.mapGet [(1, 3002), (2, 3002)] 1 = some 3002 ∧
    ProcMgr.mapDelete [(1, 3002), (2, 3002)] 1 = [(2, 3002)] ∧
    3002 ∈ ProcMgr.usedPorts (ProcMgr.mapDelete [(1, 3002), (2, 3002)] 1) ∧
    ProcMgr.getAvailablePort (ProcMgr.mapDelete [(1, 3002), (2, 3002)] 1) = some 3003 := by
  refine ⟨?_, by decide, by decide, by decide, by decide⟩
  exact ProcMgr.ReachableI.commitStart ⟨[(1, 3002)], [(2, 3002)]⟩ 2 3002
    (ProcMgr.ReachableI.commitStart ⟨[], [(1, 3002), (2, 3002)]⟩ 1 3002
      (ProcMgr.ReachableI.beginStart ⟨[], [(1, 3002)]⟩ 2 3002
        (ProcMgr.ReachableI.beginStart ⟨[], []⟩ 1 3002
          ProcMgr.ReachableI.init (by decide) (by decide))
        (by decide) (by decide))
      (by decide))
    (by decide)

/-- C5 amended: the port allocator contract. (a) A returned port is the
lowest port of the window `[startPort, startPort + maxPorts)` not held by
any current lease. (b) When every port of the window is leased, the scan
throws the exhaustion error (embedded as `none`). (c) Provided no two
leases share a port — true of every serialized execution but, as the C5
counterexample shows, not of every reachable state — after `stopApp(W)`
removes W's lease, W's former port is no longer held, and a fresh
acquisition succeeds and returns a port no higher than it. -/
theorem c5_port_allocator (procs : ProcMgr.ProcMap) :
    (∀ p, ProcMgr.getAvailablePort procs = some p →
      ProcMgr.startPort ≤ p ∧ p < ProcMgr.startPort + ProcMgr.maxPorts ∧
      p ∉ ProcMgr.usedPorts procs ∧
      ∀ q, ProcMgr.startPort ≤ q → q < p → q ∈ ProcMgr.usedPorts procs) ∧
    ((∀ q, ProcMgr.startPort ≤ q → q < ProcMgr.startPort + ProcMgr.maxPorts →
        q ∈ ProcMgr.usedPorts procs) →
      ProcMgr.getAvailablePort procs = none) ∧
    (∀ a p, (ProcMgr.usedPorts procs).Nodup → ProcMgr.mapGet procs a = some p →
      p ∉ ProcMgr.usedPorts (ProcMgr.mapDelete procs a) ∧
      (ProcMgr.startPort ≤ p → p < ProcMgr.startPort + ProcMgr.maxPorts →
        ∃ q, ProcMgr.getAvailablePort (ProcMgr.mapDelete procs a) = some q ∧ q ≤ p)) := by
  refine ⟨?_, ?_, ?_⟩
  · intro p h
    have h2 : ProcMgr.getAvailablePortAux (ProcMgr.usedPorts procs) ProcMgr.maxPorts 0
        = some p := h
    obtain ⟨h1, hle, hlt, hmin⟩ :=
      getAvailablePortAux_some (ProcMgr.usedPorts procs) ProcMgr.maxPorts 0 p h2
    exact ⟨by simpa using hle, by simpa using hlt, h1,
      fun q hq1 hq2 => hmin q (by simpa using hq1) hq2⟩
  · intro hall
    cases h : ProcMgr.getAvailablePort procs with
    | none => rfl
    | some p =>
      have h2 : ProcMgr.getAvailablePortAux (ProcMgr.usedPorts procs) ProcMgr.maxPorts 0
          = some p := h
      obtain ⟨h1, hle, hlt, _⟩ :=
        getAvailablePortAux_some (ProcMgr.usedPorts procs) ProcMgr.maxPorts 0 p h2
      exact absurd (hall p (by simpa using hle) (by simpa using hlt)) h1
  · intro a p hnd hget
    have hmem : (a, p) ∈ procs := mapGet_some_mem procs a p hget
    have hfree : p ∉ ProcMgr.usedPorts (ProcMgr.mapDelete procs a) := by
      intro hmem2
      simp only [ProcMgr.usedPorts, ProcMgr.mapDelete] at hmem2
      obtain ⟨e, he, hpe⟩ := List.mem_map.mp hmem2
      rw [List.mem_filter] at he
      obtain ⟨he2, hne⟩ := he
      have hep : e = (e.1, p) := by
        cases e
        simp_all
      have heq : e.1 = a :=
        snd_inj_of_nodup procs hnd e.1 a p (hep ▸ he2) hmem
      simp [heq] at hne
    refine ⟨hfree, ?_⟩
    intro hlo hhi
    cases h : ProcMgr.getAvailablePort (ProcMgr.mapDelete procs a) with
    | none =>
      have h2 : ProcMgr.getAvailablePortAux
          (ProcMgr.usedPorts (ProcMgr.mapDelete procs a)) ProcMgr.maxPorts 0 = none := h
      have := getAvailablePortAux_none
        (ProcMgr.usedPorts (ProcMgr.mapDelete procs a)) ProcMgr.maxPorts 0 h2 p
        (by simpa using hlo) (by simpa using hhi)
      exact absurd this hfree
    | some q =>
      have h2 : ProcMgr.getAvailablePortAux
          (ProcMgr.usedPorts (ProcMgr.mapDelete procs a)) ProcMgr.maxPorts 0 = some q := h
      obtain ⟨hq1, hqle, hqlt, hqmin⟩ := getAvailablePortAux_some
        (ProcMgr.usedPorts (ProcMgr.mapDelete procs a)) ProcMgr.maxPorts 0 q h2
      refine ⟨q, rfl, ?_⟩
      by_contra hqp
      exact hfree (hqmin p (by simpa using hlo) (by omega))

/-- Witness for C5 at the one-lease state `[(1, 3002)]`: the scan skips
the leased port 3002 and returns 3003; after stopping workspace 1, port
3002 is free again and is the port a fresh acquisition returns. -/
theorem c5_port_allocator_witness :
    (ProcMgr.startPort ≤ 3003 ∧ 3003 < ProcMgr.startPort + ProcMgr.maxPorts ∧
      3003 ∉ ProcMgr.usedPorts [(1, 3002)] ∧
      ∀ q, ProcMgr.startPort ≤ q → q < 3003 → q ∈ ProcMgr.usedPorts [(1, 3002)]) ∧
    3002 ∉ ProcMgr.usedPorts (ProcMgr.mapDelete [(1, 3002)] 1) ∧
    ∃ q, ProcMgr.getAvailablePort (ProcMgr.mapDelete [(1, 3002)] 1) = some q ∧ q ≤ 3002 := by
  have h := c5_port_allocator [(1, 3002)]
  have h3 := h.2.2 1 3002 (by decide) (by decide)
  exact ⟨h.1 3003 (by decide), h3.1, h3.2 (by decide) (by decide)⟩

/-- The hundred-lease state in which every port of the allocation window
is held by some workspace (workspace `i + 1` holds port `3002 + i`). -/
def fullLeases : ProcMgr.ProcMap :=
  (List.range ProcMgr.maxPorts).map fun i => (i + 1, ProcMgr.startPort + i)

/-- C7 counterexample: the claim says a start on a lease-less workspace
with no `package.json` fails with the "not initialized" error. In the
source the port pick (line 199) precedes the marker check (lines
204-208), so when all 100 ports are leased by other workspaces the call
fails with the exhaustion error instead: workspace 500 has no lease and
no `package.json`, yet the error is `noPorts`, not `notInitialized`. -/
theorem c7_start_counterexample :
    (ProcMgr.startAppAtomic fullLeases false false true 500).result =
      ProcMgr.StartRes.err ProcMgr.StartErr.noPorts ∧
    (ProcMgr.startAppAtomic fullLeases false false true 500).result ≠
      ProcMgr.StartRes.err ProcMgr.StartErr.notInitialized := by
  decide

/-- C7 amended: for every `startApp(user, workspace)` call on a workspace
with no existing lease, if no `package.json` exists at the workspace root
and the port window is not exhausted, the call fails with the
"not initialized" error, no dependency install runs, no child process is
spawned, and the lease map is unchanged. (When the window is exhausted
the call fails earlier with the exhaustion error — still with no install
and no spawn.) -/
theorem c7_start_not_initialized (procs : ProcMgr.ProcMap) (hasNM installOk : Bool)
    (a : Nat) (hNoLease : ProcMgr.mapGet procs a = none)
    (hPort : ProcMgr.getAvailablePort procs ≠ none) :
    (ProcMgr.startAppAtomic procs false hasNM installOk a).result =
      ProcMgr.StartRes.err ProcMgr.StartErr.notInitialized ∧
    (ProcMgr.startAppAtomic procs false hasNM installOk a).ranInstall = false ∧
    (ProcMgr.startAppAtomic procs false hasNM installOk a).spawned = false ∧
    (ProcMgr.startAppAtomic procs false hasNM installOk a).procs = procs := by
  cases hp : ProcMgr.getAvailablePort procs with
  | none => exact absurd hp hPort
  | some p => simp [ProcMgr.startAppAtomic, hNoLease, hp]

/-- Witness for C7 amended on the empty lease map. -/
theorem c7_start_not_initialized_witness :
    (ProcMgr.startAppAtomic [] false true true 7).result =
      ProcMgr.StartRes.err ProcMgr.StartErr.notInitialized ∧
    (ProcMgr.startAppAtomic [] false true true 7).ranInstall = false ∧
    (ProcMgr.startAppAtomic [] false true true 7).spawned = false ∧
    (ProcMgr.startAppAtomic [] false true true 7).procs = [] :=
  c7_start_not_initialized [] true true 7 (by decide) (by decide)

/-- C6: for every request to the preview proxy for a workspace that exists
in the apps table, if no port lease exists for it the response is status
503 with the self-refreshing HTML body, and the request is never handed to
the reverse proxy — no connection to the loopback interface is opened. -/
theorem c6_preview_no_lease (procs : ProcMgr.ProcMap) (dbAppIds : List Nat) (appId : Nat)
    (hNoLease : ProcMgr.mapGet procs appId = none) (hDb : appId ∈ dbAppIds) :
    Routes.previewHandler procs dbAppIds appId =
      Routes.PreviewOutcome.resp 503 Routes.notRunningBody ∧
    (∀ p, Routes.previewHandler procs dbAppIds appId ≠ Routes.PreviewOutcome.proxy p) ∧
    Routes.selfRefreshing Routes.notRunningBody = true := by
  have h : Routes.previewHandler procs dbAppIds appId =
      Routes.PreviewOutcome.resp 503 Routes.notRunningBody := by
    simp [Routes.previewHandler, hNoLease, hDb]
  refine ⟨h, ?_, by decide⟩
  intro p hcontra
  rw [h] at hcontra
  exact Routes.PreviewOutcome.noConfusion hcontra

/-- Witness for C6: workspace 5 exists, holds no lease. -/
theorem c6_preview_no_lease_witness :
    Routes.previewHandler [] [5] 5 =
      Routes.PreviewOutcome.resp 503 Routes.notRunningBody ∧
    Routes.previewHandler [] [5] 5 ≠ Routes.PreviewOutcome.proxy 3002 ∧
    Routes.selfRefreshing Routes.notRunningBody = true := by
  have h := c6_preview_no_lease [] [5] 5 (by decide) (by decide)
  exact ⟨h.1, h.2.1 3002, h.2.2⟩

/-- C9: the `GET /process/:appId/status` response is a function of the
workspace id and the lease map only — the authenticated caller's identity
is never consulted, so any two callers (in particular a non-owner) receive
the same body; and when a lease exists the body carries the leased port
and preview URL of the workspace, whoever asks. -/
theorem c9_status_no_ownership_check :
    (∀ (u₁ u₂ : Nat) (procs : ProcMgr.ProcMap) (appId : Nat),
      Routes.statusHandler u₁ procs appId = Routes.statusHandler u₂ procs appId) ∧
    (∀ (u : Nat) (procs : ProcMgr.ProcMap) (appId p : Nat),
      ProcMgr.mapGet procs appId = some p →
      Routes.statusHandler u procs appId =
        ⟨true, some p, some ("/preview/" ++ toString appId)⟩) := by
  refine ⟨fun u₁ u₂ procs appId => rfl, ?_⟩
  intro u procs appId p h
  simp [Routes.statusHandler, h]

/-- Witness for C9: workspace 3 is leased port 3002; caller 999 (not its
owner) reads the same status as any caller, including the port. -/
theorem c9_status_no_ownership_check_witness :
    Routes.statusHandler 999 [(3, 3002)] 3 = Routes.statusHandler 1 [(3, 3002)] 3 ∧
    Routes.statusHandler 999 [(3, 3002)] 3 =
      ⟨true, some 3002, some ("/preview/" ++ toString 3)⟩ := by
  have h := c9_status_no_ownership_check
  exact ⟨h.1 999 1 [(3, 3002)] 3, h.2 999 [(3, 3002)] 3 3002 (by decide)⟩
